import Mathlib

/-
  Verification of the AI JD parsing and candidate matching service of the
  CRM_system repository (apps/ai-jd: services/jd_parser.py,
  services/candidate_matcher.py, models/jd_models.py, main.py).

  Shallow-embedding conventions:
  * Python floats are embedded as exact rationals; `round(x, 2)` is embedded
    as floor-based rounding to 2 decimals (`round2`); no claim under study
    depends on the tie behaviour of rounding.
  * Python dicts are embedded as association lists in insertion order; a dict
    comprehension that may merge keys after lower-casing is embedded by
    `dictInsert`, which keeps the position of the first occurrence and the
    value of the last, exactly as Python does.
  * Python sets are order-free; every use of a set in the source (sums,
    membership tests) is order-insensitive, so `List.dedup` is a faithful
    embedding of `set(...)`.
  * `len(re.findall(rb + re.escape(term) + rb, text))` for a word-boundary
    marker rb is embedded by a left-to-right non-overlapping scan with
    word-boundary checks (`countWordMatches`); the regex word class is
    embedded as ASCII alphanumeric or underscore, which agrees with Python on
    the ASCII vocabularies and texts involved.
  * `datetime.now()` is embedded as an explicit `today` ordinal-day
    parameter (`(now - strptime(d)).days` equals the difference of the two
    calendar-day ordinals because the time-of-day component is nonnegative
    and below one day); `datetime.strptime(s, Y-m-d)` is `parseDateOrd`.
  * pydantic field validation (the ge/le bounds of the Match model) is
    embedded by `mkMatch` returning an Option; a raised ValidationError is
    embedded as `none` and propagates through `matchCandidates`.
  * Python `list.sort(key=..., reverse=True)` is a stable descending sort;
    its result is the unique stable descending reordering, computed here by
    the stable insertion sort `sortByDesc`.
  * Wall-clock processing time is outside the embedding; the
    `processing_time_ms` field is fixed to 0.
-/

/-! ## String and regex utilities -/

/-- ASCII embedding of the regex word-character class (letters, digits, underscore). -/
def isWordChar (c : Char) : Bool := c.isAlphanum || c == '_'

/-- Whether the character of `text` at position `j` is a word character;
positions off the end count as non-word (embedded by a space default). -/
def wordAt (text : List Char) (j : Nat) : Bool := isWordChar (text.getD j ' ')

/-- Regex word boundary at position `j` of `text`: exactly one of the
character before `j` and the character at `j` is a word character. -/
def boundaryAt (text : List Char) (j : Nat) : Bool :=
  (decide (0 < j) && wordAt text (j - 1)) != wordAt text j

/-- The pattern occurs literally at position `i` of `text`. -/
def substrAt (text pat : List Char) (i : Nat) : Bool :=
  (text.drop i).take pat.length == pat

/-- Whole-word (word-boundary delimited) occurrence of `pat` at position `i`. -/
def matchesAt (text pat : List Char) (i : Nat) : Bool :=
  substrAt text pat i && boundaryAt text i && boundaryAt text (i + pat.length)

/-- Left-to-right non-overlapping scan counting whole-word matches, as
`re.findall` does; `fuel` bounds the number of scan steps. -/
def countLoop (text pat : List Char) : Nat → Nat → Nat
  | 0, _ => 0
  | fuel + 1, i =>
    if text.length < i then 0
    else if matchesAt text pat i then 1 + countLoop text pat fuel (i + pat.length)
    else countLoop text pat fuel (i + 1)

/-- Embedding of the source's whole-word match count
`len(re.findall(word_boundary + re.escape(pat) + word_boundary, text))`
for the non-empty vocabulary patterns it is applied to. -/
def countWordMatches (text pat : String) : Nat :=
  if pat.data.isEmpty then 0
  else countLoop text.data pat.data (text.data.length + 1) 0

/-- The pattern occurs as a contiguous substring somewhere in the text. -/
def strContainsL (text pat : List Char) : Bool :=
  (List.range (text.length + 1)).any (fun i => substrAt text pat i)

/-- Embedding of the Python substring test `pat in text`. -/
def strContains (text pat : String) : Bool := strContainsL text.data pat.data

/-- Index of the first substring occurrence; embedding of `text.find(pat)`,
only used by the source at points where the pattern is known to occur. -/
def firstOccL (text pat : List Char) : Nat :=
  ((List.range (text.length + 1)).find? (fun i => substrAt text pat i)).getD 0

/-- String version of `firstOccL`. -/
def firstOcc (text pat : String) : Nat := firstOccL text.data pat.data

/-- Embedding of the Python slice `text[i:]`. -/
def sliceFrom (text : String) (i : Nat) : String := ⟨text.data.drop i⟩

/-- Embedding of Python `str.lower()` (character-wise lower-casing; the
vocabularies and inputs involved are ASCII). -/
def strLower (s : String) : String := ⟨s.data.map Char.toLower⟩

/-- Splitting a character list at every dash. -/
def splitDashAux : List Char → List Char → List (List Char)
  | [], cur => [cur.reverse]
  | c :: cs, cur =>
    if c = '-' then cur.reverse :: splitDashAux cs []
    else splitDashAux cs (c :: cur)

/-- The dash-separated fields of a string. -/
def splitDash (s : String) : List String := (splitDashAux s.data []).map (fun l => ⟨l⟩)

/-- Embedding of Python `round(x, 2)`: round to an integer number of
hundredths (half rounds up; no studied claim depends on exact halves). -/
def round2 (q : ℚ) : ℚ := ((⌊q * 100 + 1/2⌋ : ℤ) : ℚ) / 100

/-! ## Stable descending sort

`list.sort(key=..., reverse=True)` in Python is a stable sort; its result is
the unique reordering that is descending in the key and preserves the
relative order of key-equal elements, which the insertion sort below
computes. -/

/-- Insert `a` after every element whose key is at least `key a`. -/
def insertByDesc {α : Type} (key : α → ℚ) (a : α) : List α → List α
  | [] => [a]
  | b :: bs => if key a ≤ key b then b :: insertByDesc key a bs else a :: b :: bs

/-- Stable sort by `key`, descending. -/
def sortByDesc {α : Type} (key : α → ℚ) (l : List α) : List α :=
  l.foldl (fun acc a => insertByDesc key a acc) []

/-! ## Data model (models/jd_models.py) -/

/-- The closed seniority enumeration, in source declaration order. -/
inductive SeniorityLevel where
  | junior
  | mid
  | senior
  | lead
  | principal
  deriving DecidableEq

/-- An extracted technical skill with its importance weight. -/
structure Skill where
  name : String
  weight : ℚ
  deriving DecidableEq

structure JDParseRequest where
  job_description : String
  job_id : Option String
  deriving DecidableEq

structure JDParseResponse where
  skills : List Skill
  soft_skills : List String
  seniority_hint : SeniorityLevel
  job_id : Option String
  deriving DecidableEq

structure Project where
  name : String
  description : Option String
  technologies : List String
  completion_date : Option String
  deriving DecidableEq

structure Candidate where
  student_id : String
  skills : List (String × ℚ)
  eval_score : ℚ
  recent_projects : List Project
  deriving DecidableEq

structure MatchWeights where
  skill : ℚ
  eval : ℚ
  recency : ℚ
  deriving DecidableEq

structure MatchRequest where
  job_id : String
  candidates : List Candidate
  top_k : Nat
  weights : MatchWeights
  deriving DecidableEq

structure MatchReasons where
  top_terms : List String
  skill_gaps : List String
  strengths : List String
  deriving DecidableEq

structure Match where
  student_id : String
  score : ℚ
  reasons : MatchReasons
  skill_score : ℚ
  eval_score : ℚ
  recency_score : ℚ
  deriving DecidableEq

structure MatchResponse where
  job_id : String
  «matches» : List Match
  total_candidates : Nat
  processing_time_ms : ℚ
  deriving DecidableEq

/-! ## Requirement extractor (services/jd_parser.py) -/

/-- The technical vocabulary, transcribed from the source's set literal (a
Python set iterates in an unspecified order; every use below is
order-insensitive, see the sort tie-break note in `extractTechnicalSkills`). -/
def technicalSkillsList : List String :=
  ["python", "java", "javascript", "typescript", "c++", "c#", "go", "rust", "php", "ruby",
   "swift", "kotlin", "scala", "r", "matlab", "sql", "html", "css",
   "react", "angular", "vue", "nodejs", "express", "django", "flask", "fastapi",
   "spring", "hibernate", "tensorflow", "pytorch", "keras", "scikit-learn",
   "pandas", "numpy", "matplotlib", "seaborn",
   "mysql", "postgresql", "mongodb", "redis", "elasticsearch", "cassandra",
   "oracle", "sqlite", "dynamodb",
   "aws", "azure", "gcp", "docker", "kubernetes", "jenkins", "gitlab", "github",
   "terraform", "ansible", "chef", "puppet", "nginx", "apache",
   "git", "linux", "unix", "bash", "powershell", "vim", "vscode", "intellij",
   "jira", "confluence", "slack", "teams",
   "agile", "scrum", "kanban", "devops", "ci/cd", "tdd", "bdd",
   "hadoop", "spark", "kafka", "airflow", "tableau", "powerbi", "looker",
   "etl", "data warehouse", "machine learning", "deep learning", "nlp",
   "ios", "android", "react native", "flutter", "xamarin",
   "cybersecurity", "penetration testing", "oauth", "jwt", "ssl", "tls"]

/-- The soft-skill vocabulary, transcribed from the source. -/
def softSkillsList : List String :=
  ["communication", "leadership", "teamwork", "problem solving", "critical thinking",
   "creativity", "adaptability", "time management", "project management",
   "analytical thinking", "attention to detail", "collaboration", "mentoring",
   "presentation", "negotiation", "customer service", "emotional intelligence"]

/-- The seniority levels in their enumeration order. -/
def seniorityLevels : List SeniorityLevel :=
  [.junior, .mid, .senior, .lead, .principal]

/-- Trigger phrases per seniority level, transcribed from the source. -/
def seniorityKeywords : SeniorityLevel → List String
  | .junior => ["junior", "entry level", "graduate", "intern", "0-2 years", "beginner"]
  | .mid => ["mid level", "intermediate", "2-5 years", "3-5 years", "experienced"]
  | .senior => ["senior", "5+ years", "5-8 years", "expert", "advanced"]
  | .lead => ["lead", "team lead", "tech lead", "technical lead", "manager"]
  | .principal => ["principal", "architect", "staff", "distinguished", "10+ years"]

/-- Base weight `min(0.1 + frequency * 0.1, 1.0)` of a matched term. -/
def baseWeight (text term : String) : ℚ :=
  min (1/10 + (countWordMatches text term : ℚ) * (1/10)) 1

/-- The section-boost condition exactly as the source parses. The inner
Python line is a conditional expression
`(skill in jd_text[jd_text.find(req_lit):]) if req_lit in jd_text else jd_text`,
so when the text lacks the literal word for requirements the condition is
the text itself, which is truthy whenever the text is non-empty. -/
def boostApplies (text term : String) : Bool :=
  (strContains text "requirements" || strContains text "required" ||
      strContains text "must have")
  && (if strContains text "requirements"
      then strContains (sliceFrom text (firstOcc text "requirements")) term
      else !text.data.isEmpty)

/-- Weight of a matched term after the optional section boost. -/
def termWeight (text term : String) : ℚ :=
  if boostApplies text term then min (baseWeight text term * (3/2)) 1
  else baseWeight text term

/-- Embedding of `_extract_technical_skills`: keep every vocabulary term
with at least one whole-word match, weight it, sort by weight descending
and keep the top 20. The sort tie order among equal weights follows the
transcription order of the vocabulary (the source iterates a Python set,
whose order is unspecified; the spec leaves the tie order unspecified). -/
def extractTechnicalSkills (text : String) : List Skill :=
  let found := technicalSkillsList.filterMap (fun term =>
    if countWordMatches text term == 0 then none
    else some ⟨term, round2 (termWeight text term)⟩)
  (sortByDesc (fun s => s.weight) found).take 20

/-- Embedding of `_extract_soft_skills`: keep the terms with at least one
whole-word match (`re.search` succeeds exactly when the count is positive). -/
def extractSoftSkills (text : String) : List String :=
  softSkillsList.filter (fun s => countWordMatches text s != 0)

/-- Total whole-word trigger-phrase count of one seniority level. -/
def seniorityScore (text : String) (l : SeniorityLevel) : Nat :=
  ((seniorityKeywords l).map (fun k => countWordMatches text k)).sum

/-- The level/score pairs in enumeration order, as the source's dict items. -/
def seniorityPairs (text : String) : List (SeniorityLevel × Nat) :=
  seniorityLevels.map (fun l => (l, seniorityScore text l))

/-- Embedding of Python `max(items, key=lambda x: x[1])`: the fold replaces
the current best only on a strictly greater score, so the first maximal
item in iteration order wins. -/
def maxByScore (l : List (SeniorityLevel × Nat)) : SeniorityLevel × Nat :=
  match l with
  | [] => (.mid, 0)
  | x :: xs => xs.foldl (fun best p => if best.2 < p.2 then p else best) x

/-- The level selected by `max(seniority_scores.items(), key=...)`: the
first level in enumeration order attaining the maximal trigger count. -/
def firstArgmaxLevel (text : String) : SeniorityLevel :=
  (maxByScore (seniorityPairs text)).1

/-- Embedding of `max(seniority_scores.values())`. -/
def maxSeniorityScore (text : String) : Nat :=
  ((seniorityPairs text).map (fun p => p.2)).foldr max 0

/-- Embedding of `_determine_seniority`. -/
def determineSeniority (text : String) : SeniorityLevel :=
  if maxSeniorityScore text == 0 then .mid else firstArgmaxLevel text

/-- Embedding of `parse_jd`: lower-case once, then extract. -/
def parseJD (req : JDParseRequest) : JDParseResponse :=
  let t := strLower req.job_description
  ⟨extractTechnicalSkills t, extractSoftSkills t, determineSeniority t, req.job_id⟩

/-! ## Candidate ranker (services/candidate_matcher.py) -/

/-- Key membership test on an association-list dict, `k in d`. -/
def isKey (d : List (String × ℚ)) (k : String) : Bool := d.any (fun p => p.1 == k)

/-- Dict lookup `d[k]`; the source only evaluates it at present keys. -/
def dictGet (d : List (String × ℚ)) (k : String) : ℚ :=
  match d.find? (fun p => p.1 == k) with
  | some p => p.2
  | none => 0

/-- Python dict assignment `d[k] = v`: replace in place or append. -/
def dictInsert (d : List (String × ℚ)) (k : String) (v : ℚ) : List (String × ℚ) :=
  if d.any (fun p => p.1 == k) then
    d.map (fun p => if p.1 == k then (k, v) else p)
  else d ++ [(k, v)]

/-- Embedding of the comprehension lower-casing the keys of a skill dict. -/
def lowerDict (skills : List (String × ℚ)) : List (String × ℚ) :=
  skills.foldl (fun d p => dictInsert d (strLower p.1) p.2) []

/-- The fixed alias table of `_find_partial_skill_match`, in declared order. -/
def skillMappings : List (String × List String) :=
  [("machine learning", ["ml", "ai", "artificial intelligence"]),
   ("artificial intelligence", ["ai", "ml", "machine learning"]),
   ("javascript", ["js", "node", "nodejs"]),
   ("python", ["py"]),
   ("database", ["db", "sql", "mysql", "postgresql"]),
   ("react", ["reactjs"]),
   ("angular", ["angularjs"])]

/-- The first alias of `jobSkill` (in the alias list's declared order) that
is a key of the candidate's skills, when `jobSkill` is a canonical term. -/
def aliasFirst (jobSkill : String) (candSkills : List (String × ℚ)) : Option String :=
  match skillMappings.find? (fun p => p.1 == jobSkill) with
  | some p => p.2.find? (fun a => isKey candSkills a)
  | none => none

/-- Embedding of `_find_partial_skill_match`: alias lookup at 0.8 weight,
else the first substring-related candidate skill at 0.6 weight, else 0. -/
def findPartialSkillMatch (jobSkill : String) (candSkills : List (String × ℚ)) : ℚ :=
  match aliasFirst jobSkill candSkills with
  | some a => dictGet candSkills a * (4/5)
  | none =>
    match candSkills.find? (fun p => strContains p.1 jobSkill || strContains jobSkill p.1) with
    | some p => p.2 * (3/5)
    | none => 0

/-- The deduplicated, lower-cased required skills, `set(skill.lower() ...)`. -/
def jobSkillsSet (jobSkills : List String) : List String :=
  (jobSkills.map strLower).dedup

/-- One required skill's contribution inside the scoring loop. -/
def skillContrib (candLower : List (String × ℚ)) (r : String) : ℚ :=
  if isKey candLower r then dictGet candLower r else findPartialSkillMatch r candLower

/-- Embedding of `_calculate_skill_score`, including the early return 0 when
the direct-match intersection is empty. -/
def calculateSkillScore (candidateSkills : List (String × ℚ)) (jobSkills : List String) : ℚ :=
  if jobSkills.isEmpty || candidateSkills.isEmpty then 0
  else
    let jset := jobSkillsSet jobSkills
    let candLower := lowerDict candidateSkills
    if jset.all (fun s => !isKey candLower s) then 0
    else
      let total := (jset.map (skillContrib candLower)).sum
      let maxPossible : ℚ := 5 * (jset.length : ℚ)
      if 0 < maxPossible then total / maxPossible * 100 else 0

/-- Modelled from the claim and spec wording of the skill score (spec 4.2):
per-requirement contributions are always summed and normalised, with no
early return on an empty direct-match set. Stated only to be compared with
`calculateSkillScore`, the source's function. -/
def skillScoreClaimC1 (candidateSkills : List (String × ℚ)) (jobSkills : List String) : ℚ :=
  if jobSkills.isEmpty || candidateSkills.isEmpty then 0
  else
    let jset := jobSkillsSet jobSkills
    let candLower := lowerDict candidateSkills
    (jset.map (skillContrib candLower)).sum / (5 * (jset.length : ℚ)) * 100

/-! ### Project recency -/

/-- Numeric value of a digit string (only applied to all-digit strings). -/
def natOfDigits (l : List Char) : Nat := l.foldl (fun n c => n * 10 + (c.toNat - 48)) 0

def isLeap (y : Nat) : Bool := (y % 4 == 0 && y % 100 != 0) || y % 400 == 0

def daysInMonth (y m : Nat) : Nat :=
  if m == 2 then (if isLeap y then 29 else 28)
  else if m == 4 || m == 6 || m == 9 || m == 11 then 30
  else 31

/-- Proleptic-Gregorian day ordinal of a calendar date (Rata Die). -/
def dateOrd (y m d : Nat) : Nat :=
  365 * (y - 1) + (y - 1) / 4 - (y - 1) / 100 + (y - 1) / 400
    + ((List.range (m - 1)).map (fun i => daysInMonth y (i + 1))).sum + d

/-- Embedding of `datetime.strptime(s, Y-m-d)` returning the day ordinal:
year of exactly 4 digits, month and day of 1 or 2 digits, the whole string
consumed, and a real calendar date (month 1..12, day within the month,
year at least 1), else a parse failure. -/
def parseDateOrd (s : String) : Option Nat :=
  match splitDash s with
  | [ys, ms, ds] =>
    if ys.data.all Char.isDigit && ms.data.all Char.isDigit && ds.data.all Char.isDigit
        && ys.length == 4 && decide (1 ≤ ms.length) && decide (ms.length ≤ 2)
        && decide (1 ≤ ds.length) && decide (ds.length ≤ 2) then
      let y := natOfDigits ys.data
      let m := natOfDigits ms.data
      let d := natOfDigits ds.data
      if 1 ≤ y && 1 ≤ m && m ≤ 12 && 1 ≤ d && d ≤ daysInMonth y m then
        some (dateOrd y m d)
      else none
    else none
  | _ => none

/-- Per-project recency contribution: the source first tests the truthiness
of `completion_date` (None and the empty string both fall to the 70
branch), then parses and buckets the elapsed days. -/
def projectScore (today : Nat) (p : Project) : ℚ :=
  match p.completion_date with
  | none => 70
  | some s =>
    if s = "" then 70
    else
      match parseDateOrd s with
      | none => 50
      | some d =>
        let daysAgo : Int := (today : Int) - (d : Int)
        if daysAgo ≤ 30 then 100
        else if daysAgo ≤ 90 then 80
        else if daysAgo ≤ 180 then 60
        else if daysAgo ≤ 365 then 40
        else 20

/-- Embedding of `_calculate_recency_score`. -/
def calculateRecencyScore (today : Nat) (projects : List Project) : ℚ :=
  if projects.isEmpty then 50
  else ((projects.map (projectScore today)).sum) / (projects.length : ℚ)

/-! ### Reasons, evaluation, ranking -/

/-- Rendering of a skill level inside a reason string; abstracts Python's
float formatting (the claims never inspect these strings). -/
def levelStr (q : ℚ) : String := toString q

/-- Embedding of `_generate_match_reasons`. -/
def generateMatchReasons (c : Candidate) (jobSkills : List String) : MatchReasons :=
  let candLower := lowerDict c.skills
  let jobLower := jobSkills.map strLower
  let step := fun (acc : List String × List String × List String) (j : String) =>
    let tt := acc.1
    let sg := acc.2.1
    let st := acc.2.2
    if isKey candLower j then
      let lvl := dictGet candLower j
      if 4 ≤ lvl then (tt ++ [j], sg, st ++ [j ++ " (level " ++ levelStr lvl ++ ")"])
      else if 2 ≤ lvl then (tt ++ [j], sg, st)
      else (tt, sg ++ [j ++ " (low level: " ++ levelStr lvl ++ ")"], st)
    else (tt, sg ++ [j], st)
  let acc := jobLower.foldl step ([], [], [])
  let extras := (c.skills.filter (fun p =>
      decide ((9:ℚ)/2 ≤ p.2) && !(jobLower.contains (strLower p.1)))).map
    (fun p => p.1 ++ " (level " ++ levelStr p.2 ++ ")")
  ⟨acc.1.take 5, acc.2.1.take 5, (acc.2.2 ++ extras).take 3⟩

/-- Construction of a Match with pydantic ge/le validation of every score
field; a ValidationError is embedded as `none`. -/
def mkMatch (sid : String) (score sk ev recS : ℚ) (reasons : MatchReasons) : Option Match :=
  if 0 ≤ score ∧ score ≤ 100 ∧ 0 ≤ sk ∧ sk ≤ 100 ∧ 0 ≤ ev ∧ ev ≤ 100
      ∧ 0 ≤ recS ∧ recS ≤ 100 then
    some ⟨sid, score, reasons, sk, ev, recS⟩
  else none

/-- Embedding of `_evaluate_candidate`: weighted sum of the three component
scores, rounded to 2 decimals, with no clamping before validation. -/
def evaluateCandidate (today : Nat) (c : Candidate) (jobSkills : List String)
    (w : MatchWeights) : Option Match :=
  let sk := calculateSkillScore c.skills jobSkills
  let ev := c.eval_score
  let recS := calculateRecencyScore today c.recent_projects
  let overall := sk * w.skill + ev * w.eval + recS * w.recency
  mkMatch c.student_id (round2 overall) (round2 sk) (round2 ev) (round2 recS)
    (generateMatchReasons c jobSkills)

/-- Evaluation of all candidates in input order; the first validation
failure aborts the batch, as the raised exception does in the source. -/
def evalAll (today : Nat) (jobSkills : List String) (w : MatchWeights) :
    List Candidate → Option (List Match)
  | [] => some []
  | c :: cs =>
    match evaluateCandidate today c jobSkills w with
    | none => none
    | some m =>
      match evalAll today jobSkills w cs with
      | none => none
      | some ms => some (m :: ms)

/-- The built-in default skill list used when no job skills are supplied. -/
def defaultJobSkills : List String := ["python", "machine learning", "sql", "communication"]

/-- Embedding of `match_candidates`: default the skill list, evaluate every
candidate, sort by score descending (stable), truncate to `top_k`. -/
def matchCandidates (today : Nat) (req : MatchRequest) (jobSkills : Option (List String)) :
    Option MatchResponse :=
  let js := jobSkills.getD defaultJobSkills
  match evalAll today js req.weights req.candidates with
  | none => none
  | some ms =>
    some ⟨req.job_id, (sortByDesc (fun m => m.score) ms).take req.top_k,
      req.candidates.length, 0⟩

/-- The HTTP match endpoint of main.py calls the service without a skill
list, so the default list is always used there. -/
def matchEndpoint (today : Nat) (req : MatchRequest) : Option MatchResponse :=
  matchCandidates today req none

/-! ### Validity predicates (boundary constraints) -/

/-- The MatchWeights bounds enforced by the pydantic model. -/
def validWeights (w : MatchWeights) : Bool :=
  decide (0 ≤ w.skill) && decide (w.skill ≤ 1) && decide (0 ≤ w.eval)
    && decide (w.eval ≤ 1) && decide (0 ≤ w.recency) && decide (w.recency ≤ 1)

/-- Candidate validity: the pydantic eval_score bounds plus the skill-level
range 0..5 that the spec's data model prescribes (pydantic types the skill
dict but does not bound its values). -/
def validCandidate (c : Candidate) : Bool :=
  decide (0 ≤ c.eval_score) && decide (c.eval_score ≤ 100)
    && c.skills.all (fun p => decide (0 ≤ p.2) && decide (p.2 ≤ 5))

/-- Request validity: pydantic top_k and weight bounds plus candidate validity. -/
def validRequest (req : MatchRequest) : Bool :=
  decide (1 ≤ req.top_k) && decide (req.top_k ≤ 100) && validWeights req.weights
    && req.candidates.all validCandidate

/-! ### Claim-side definitions (stated from the spec's words, for comparison) -/

/-- The boost window as the spec and claim describe it: the suffix of the
text from the first occurrence of the requirements literal when that
literal is present, otherwise the whole text. -/
def claimBoostWindow (text : String) : String :=
  if strContains text "requirements" then sliceFrom text (firstOcc text "requirements")
  else text

/-- The claim's boost condition: a section literal is present and the term
occurs (as a substring) within the boost window. -/
def claimBoostCond (text term : String) : Bool :=
  (strContains text "requirements" || strContains text "required" ||
      strContains text "must have")
  && strContains (claimBoostWindow text) term

/-- At least one required skill is a direct key of the candidate's
lower-cased skill map (the condition killing the early return). -/
def hasDirectMatch (candidateSkills : List (String × ℚ)) (jobSkills : List String) : Bool :=
  (jobSkillsSet jobSkills).any (fun s => isKey (lowerDict candidateSkills) s)

/-- Position of a level in the enumeration order. -/
def enumIdx : SeniorityLevel → Nat
  | .junior => 0
  | .mid => 1
  | .senior => 2
  | .lead => 3
  | .principal => 4

/-- The selected seniority level attains the maximal trigger count. -/
def attainsMaxSeniority (text : String) : Prop :=
  ∀ l, seniorityScore text l ≤ seniorityScore text (determineSeniority text)

/-- Among the levels attaining the maximal trigger count, the selected one
is first in enumeration order. -/
def firstAmongMaxSeniority (text : String) : Prop :=
  ∀ l, seniorityScore text l = seniorityScore text (determineSeniority text) →
    enumIdx (determineSeniority text) ≤ enumIdx l

/-- No technical-vocabulary term has a whole-word match in the text. -/
def noTechMatches (text : String) : Bool :=
  technicalSkillsList.all (fun t => countWordMatches text t == 0)

/-- No soft-skill term has a whole-word match in the text. -/
def noSoftMatches (text : String) : Bool :=
  softSkillsList.all (fun s => countWordMatches text s == 0)

/-- Every seniority level's trigger count is zero in the text. -/
def noSeniorityMatches (text : String) : Bool :=
  seniorityLevels.all (fun l => seniorityScore text l == 0)

/-! ## Support lemmas -/

theorem listSum_nonneg (l : List ℚ) (h : ∀ x ∈ l, 0 ≤ x) : 0 ≤ l.sum := by
  induction l with
  | nil => simp
  | cons a t ih =>
    simp only [List.sum_cons]
    have ha := h a (by simp)
    have ht := ih (fun x hx => h x (by simp [hx]))
    linarith

theorem listSum_le_mul_length (l : List ℚ) (b : ℚ) (h : ∀ x ∈ l, x ≤ b) :
    l.sum ≤ (l.length : ℚ) * b := by
  induction l with
  | nil => simp
  | cons a t ih =>
    simp only [List.sum_cons, List.length_cons]
    have ha := h a (by simp)
    have ht := ih (fun x hx => h x (by simp [hx]))
    push_cast
    linarith

theorem isEmpty_false_of_ne_nil {α : Type} {l : List α} (h : l ≠ []) : l.isEmpty = false := by
  cases l with
  | nil => exact absurd rfl h
  | cons a t => rfl

theorem substrAt_pos_lt (text pat : List Char) (j : Nat) (hp : pat ≠ [])
    (h : substrAt text pat j = true) : j < text.length := by
  by_contra hj
  push_neg at hj
  unfold substrAt at h
  rw [List.drop_eq_nil_of_le hj] at h
  simp only [List.take_nil, beq_iff_eq] at h
  exact hp h.symm

theorem countLoop_pos_substr (text pat : List Char) :
    ∀ fuel i, 0 < countLoop text pat fuel i → ∃ j, substrAt text pat j = true := by
  intro fuel
  induction fuel with
  | zero => intro i h; simp [countLoop] at h
  | succ n ih =>
    intro i h
    unfold countLoop at h
    split at h
    · simp at h
    · split at h
      · next hm =>
        simp only [matchesAt, Bool.and_eq_true] at hm
        exact ⟨i, hm.1.1⟩
      · exact ih _ h

theorem countWordMatches_pos (text pat : String) (h : 0 < countWordMatches text pat) :
    strContains text pat = true ∧ text.data ≠ [] := by
  unfold countWordMatches at h
  split at h
  · simp at h
  · next hp =>
    obtain ⟨j, hj⟩ := countLoop_pos_substr text.data pat.data _ _ h
    have hpat : pat.data ≠ [] := by
      intro hnil
      rw [hnil] at hp
      exact hp rfl
    have hjlt := substrAt_pos_lt text.data pat.data j hpat hj
    constructor
    · unfold strContains strContainsL
      rw [List.any_eq_true]
      exact ⟨j, List.mem_range.mpr (by omega), hj⟩
    · intro hnil
      rw [hnil] at hjlt
      simp at hjlt

theorem round2_bounds (q : ℚ) (h0 : 0 ≤ q) (h1 : q ≤ 100) :
    0 ≤ round2 q ∧ round2 q ≤ 100 := by
  unfold round2
  have hlow : (0:ℤ) ≤ ⌊q * 100 + 1/2⌋ := by
    apply Int.le_floor.mpr
    push_cast
    linarith
  have hhigh : ⌊q * 100 + 1/2⌋ ≤ ⌊(100:ℚ) * 100 + 1/2⌋ := Int.floor_mono (by linarith)
  have hval : ⌊(100:ℚ) * 100 + 1/2⌋ = (10000 : ℤ) := by
    norm_num
  rw [hval] at hhigh
  constructor
  · apply div_nonneg _ (by norm_num)
    exact_mod_cast hlow
  · rw [div_le_iff₀ (by norm_num)]
    have : ((⌊q * 100 + 1/2⌋ : ℤ) : ℚ) ≤ ((10000 : ℤ) : ℚ) := by exact_mod_cast hhigh
    linarith

theorem mem_insertByDesc {α : Type} (key : α → ℚ) (a x : α) (l : List α) :
    x ∈ insertByDesc key a l ↔ x = a ∨ x ∈ l := by
  induction l with
  | nil => simp [insertByDesc]
  | cons b bs ih =>
    unfold insertByDesc
    split
    · simp only [List.mem_cons, ih]
      tauto
    · simp only [List.mem_cons]

theorem insertByDesc_pairwise {α : Type} (key : α → ℚ) (a : α) (l : List α)
    (h : l.Pairwise (fun x y => key y ≤ key x)) :
    (insertByDesc key a l).Pairwise (fun x y => key y ≤ key x) := by
  induction l with
  | nil => simp [insertByDesc]
  | cons b bs ih =>
    rw [List.pairwise_cons] at h
    obtain ⟨hb, hbs⟩ := h
    unfold insertByDesc
    split
    · next hle =>
      rw [List.pairwise_cons]
      refine ⟨fun x hx => ?_, ih hbs⟩
      rcases (mem_insertByDesc key a x bs).mp hx with rfl | hxbs
      · exact hle
      · exact hb x hxbs
    · next hgt =>
      push_neg at hgt
      rw [List.pairwise_cons]
      refine ⟨fun x hx => ?_, List.pairwise_cons.mpr ⟨hb, hbs⟩⟩
      rcases List.mem_cons.mp hx with rfl | hxbs
      · exact le_of_lt hgt
      · exact le_trans (hb x hxbs) (le_of_lt hgt)

theorem insertByDesc_filter_eq {α : Type} (key : α → ℚ) (a : α) (c : ℚ) (l : List α)
    (hsort : l.Pairwise (fun x y => key y ≤ key x)) (hc : key a = c) :
    (insertByDesc key a l).filter (fun x => decide (key x = c))
      = l.filter (fun x => decide (key x = c)) ++ [a] := by
  induction l with
  | nil => simp [insertByDesc, hc]
  | cons b bs ih =>
    rw [List.pairwise_cons] at hsort
    obtain ⟨hb, hbs⟩ := hsort
    unfold insertByDesc
    split
    · next hle =>
      rw [List.filter_cons, List.filter_cons]
      split
      · simp only [List.cons_append]
        rw [ih hbs]
      · exact ih hbs
    · next hgt =>
      push_neg at hgt
      have hall : ∀ x ∈ b :: bs, key x < key a := by
        intro x hx
        rcases List.mem_cons.mp hx with rfl | hxbs
        · exact hgt
        · exact lt_of_le_of_lt (hb x hxbs) hgt
      have hfilter : (b :: bs).filter (fun x => decide (key x = c)) = [] := by
        rw [List.filter_eq_nil_iff]
        intro x hx
        simp only [decide_eq_true_eq]
        have := hall x hx
        rw [hc] at this
        exact ne_of_lt this
      rw [hfilter, List.filter_cons, hfilter]
      simp [hc]

theorem insertByDesc_filter_ne {α : Type} (key : α → ℚ) (a : α) (c : ℚ) (l : List α)
    (hc : key a ≠ c) :
    (insertByDesc key a l).filter (fun x => decide (key x = c))
      = l.filter (fun x => decide (key x = c)) := by
  induction l with
  | nil => simp [insertByDesc, hc]
  | cons b bs ih =>
    unfold insertByDesc
    split
    · rw [List.filter_cons, List.filter_cons]
      split
      · rw [ih]
      · exact ih
    · rw [List.filter_cons]
      simp [hc]

theorem sortLoop_spec {α : Type} (key : α → ℚ) :
    ∀ (l acc : List α), acc.Pairwise (fun x y => key y ≤ key x) →
      (l.foldl (fun acc a => insertByDesc key a acc) acc).Pairwise (fun x y => key y ≤ key x)
      ∧ ∀ c, (l.foldl (fun acc a => insertByDesc key a acc) acc).filter
            (fun x => decide (key x = c))
          = acc.filter (fun x => decide (key x = c))
            ++ l.filter (fun x => decide (key x = c)) := by
  intro l
  induction l with
  | nil =>
    intro acc hacc
    exact ⟨hacc, fun c => by simp⟩
  | cons a t ih =>
    intro acc hacc
    have hins := insertByDesc_pairwise key a acc hacc
    obtain ⟨h1, h2⟩ := ih (insertByDesc key a acc) hins
    refine ⟨h1, fun c => ?_⟩
    rw [List.foldl_cons, h2 c, List.filter_cons]
    by_cases hc : key a = c
    · rw [insertByDesc_filter_eq key a c acc hacc hc]
      simp [hc]
    · rw [insertByDesc_filter_ne key a c acc hc]
      simp [hc]

theorem sortByDesc_pairwise {α : Type} (key : α → ℚ) (l : List α) :
    (sortByDesc key l).Pairwise (fun x y => key y ≤ key x) :=
  (sortLoop_spec key l [] (by simp)).1

theorem sortByDesc_filter {α : Type} (key : α → ℚ) (l : List α) (c : ℚ) :
    (sortByDesc key l).filter (fun x => decide (key x = c))
      = l.filter (fun x => decide (key x = c)) := by
  have h := (sortLoop_spec key l [] (by simp)).2 c
  simpa [sortByDesc] using h

theorem insertByDesc_length {α : Type} (key : α → ℚ) (a : α) (l : List α) :
    (insertByDesc key a l).length = l.length + 1 := by
  induction l with
  | nil => rfl
  | cons b bs ih =>
    unfold insertByDesc
    split
    · simp [ih]
    · simp

theorem sortByDesc_length {α : Type} (key : α → ℚ) (l : List α) :
    (sortByDesc key l).length = l.length := by
  suffices h : ∀ (l acc : List α),
      (l.foldl (fun acc a => insertByDesc key a acc) acc).length = acc.length + l.length by
    simpa [sortByDesc] using h l []
  intro l
  induction l with
  | nil => intro acc; simp
  | cons a t ih =>
    intro acc
    rw [List.foldl_cons, ih, insertByDesc_length]
    simp
    omega

theorem evalAll_length (today : Nat) (js : List String) (w : MatchWeights) :
    ∀ (cs : List Candidate) (ms : List Match), evalAll today js w cs = some ms →
      ms.length = cs.length := by
  intro cs
  induction cs with
  | nil =>
    intro ms h
    simp only [evalAll, Option.some.injEq] at h
    rw [← h]
    rfl
  | cons c t ih =>
    intro ms h
    unfold evalAll at h
    split at h
    · exact absurd h (by simp)
    · split at h
      · exact absurd h (by simp)
      · next ms2 hms2 =>
        injection h with h
        rw [← h]
        simp [ih ms2 hms2]

theorem dictInsert_values (P : ℚ → Prop) (d : List (String × ℚ)) (k : String) (v : ℚ)
    (hd : ∀ p ∈ d, P p.2) (hv : P v) : ∀ p ∈ dictInsert d k v, P p.2 := by
  intro p hp
  unfold dictInsert at hp
  split at hp
  · obtain ⟨q, hq, hqp⟩ := List.mem_map.mp hp
    split at hqp
    · rw [← hqp]; exact hv
    · rw [← hqp]; exact hd q hq
  · rcases List.mem_append.mp hp with h | h
    · exact hd p h
    · simp only [List.mem_singleton] at h
      rw [h]
      exact hv

theorem lowerDict_values (P : ℚ → Prop) (skills : List (String × ℚ))
    (h : ∀ p ∈ skills, P p.2) : ∀ p ∈ lowerDict skills, P p.2 := by
  suffices hgen : ∀ (l acc : List (String × ℚ)), (∀ p ∈ acc, P p.2) → (∀ p ∈ l, P p.2) →
      ∀ p ∈ l.foldl (fun d q => dictInsert d (strLower q.1) q.2) acc, P p.2 by
    exact hgen skills [] (by simp) h
  intro l
  induction l with
  | nil => intro acc hacc _ p hp; exact hacc p hp
  | cons a t ih =>
    intro acc hacc hl p hp
    rw [List.foldl_cons] at hp
    exact ih (dictInsert acc (strLower a.1) a.2)
      (dictInsert_values P acc _ _ hacc (hl a (by simp)))
      (fun q hq => hl q (by simp [hq])) p hp

theorem dictGet_bound (P : ℚ → Prop) (d : List (String × ℚ)) (k : String)
    (hd : ∀ p ∈ d, P p.2) (h0 : P 0) : P (dictGet d k) := by
  unfold dictGet
  split
  · next p hp => exact hd p (List.mem_of_find?_eq_some hp)
  · exact h0

theorem findPartialSkillMatch_bound (jobSkill : String) (d : List (String × ℚ))
    (hd : ∀ p ∈ d, 0 ≤ p.2 ∧ p.2 ≤ 5) :
    0 ≤ findPartialSkillMatch jobSkill d ∧ findPartialSkillMatch jobSkill d ≤ 5 := by
  unfold findPartialSkillMatch
  split
  · next a _ =>
    have h := dictGet_bound (fun v => 0 ≤ v ∧ v ≤ 5) d a hd (by norm_num)
    constructor
    · nlinarith [h.1]
    · nlinarith [h.2]
  · split
    · next p hp =>
      have h := hd p (List.mem_of_find?_eq_some hp)
      constructor
      · nlinarith [h.1]
      · nlinarith [h.2]
    · norm_num

theorem skillContrib_bound (d : List (String × ℚ)) (r : String)
    (hd : ∀ p ∈ d, 0 ≤ p.2 ∧ p.2 ≤ 5) :
    0 ≤ skillContrib d r ∧ skillContrib d r ≤ 5 := by
  unfold skillContrib
  split
  · exact dictGet_bound (fun v => 0 ≤ v ∧ v ≤ 5) d r hd (by norm_num)
  · exact findPartialSkillMatch_bound r d hd

theorem calculateSkillScore_bounds (cand : List (String × ℚ)) (js : List String)
    (h : ∀ p ∈ cand, 0 ≤ p.2 ∧ p.2 ≤ 5) :
    0 ≤ calculateSkillScore cand js ∧ calculateSkillScore cand js ≤ 100 := by
  simp only [calculateSkillScore]
  split
  · norm_num
  · split
    · norm_num
    · split
      · next hpos =>
        have hvals := lowerDict_values (fun v => 0 ≤ v ∧ v ≤ 5) cand h
        have hterm : ∀ x ∈ (jobSkillsSet js).map (skillContrib (lowerDict cand)),
            0 ≤ x ∧ x ≤ 5 := by
          intro x hx
          obtain ⟨r, _, rfl⟩ := List.mem_map.mp hx
          exact skillContrib_bound (lowerDict cand) r hvals
        have hsum0 : 0 ≤ ((jobSkillsSet js).map (skillContrib (lowerDict cand))).sum :=
          listSum_nonneg _ (fun x hx => (hterm x hx).1)
        have hsum5 := listSum_le_mul_length
          ((jobSkillsSet js).map (skillContrib (lowerDict cand))) 5
          (fun x hx => (hterm x hx).2)
        rw [List.length_map] at hsum5
        constructor
        · exact mul_nonneg (div_nonneg hsum0 (le_of_lt hpos)) (by norm_num)
        · have hdiv : ((jobSkillsSet js).map (skillContrib (lowerDict cand))).sum
              / (5 * ((jobSkillsSet js).length : ℚ)) ≤ 1 := by
            rw [div_le_one hpos]
            linarith
          nlinarith [div_nonneg hsum0 (le_of_lt hpos)]
      · norm_num

theorem projectScore_bounds (today : Nat) (p : Project) :
    0 ≤ projectScore today p ∧ projectScore today p ≤ 100 := by
  unfold projectScore
  split
  · norm_num
  · split
    · norm_num
    · split
      · norm_num
      · dsimp only
        split
        · norm_num
        · split
          · norm_num
          · split
            · norm_num
            · split
              · norm_num
              · norm_num

theorem calculateRecencyScore_bounds (today : Nat) (ps : List Project) :
    0 ≤ calculateRecencyScore today ps ∧ calculateRecencyScore today ps ≤ 100 := by
  unfold calculateRecencyScore
  split
  · norm_num
  · next hne =>
    have hnil : ps ≠ [] := by
      intro h
      rw [h] at hne
      exact hne rfl
    have hlen : 0 < (ps.length : ℚ) := by
      exact_mod_cast List.length_pos.mpr hnil
    have h0 : 0 ≤ (ps.map (projectScore today)).sum :=
      listSum_nonneg _ (fun x hx => by
        obtain ⟨q, _, rfl⟩ := List.mem_map.mp hx
        exact (projectScore_bounds today q).1)
    have h100 := listSum_le_mul_length (ps.map (projectScore today)) 100
      (fun x hx => by
        obtain ⟨q, _, rfl⟩ := List.mem_map.mp hx
        exact (projectScore_bounds today q).2)
    rw [List.length_map] at h100
    constructor
    · exact div_nonneg h0 (le_of_lt hlen)
    · rw [div_le_iff₀ hlen]
      linarith

/-! ## Claim C9 -/

/-- C9: when the ranking operation is invoked without a required-skill list
(job_skills is None) — as every call through the HTTP match endpoint is —
every candidate is scored against the fixed built-in default skill list
python, machine learning, sql, communication; the request's job_id is only
echoed back and has no influence on the computed matches. -/
theorem c9_default_skills_used (today : Nat) (req : MatchRequest) (j : String) :
    matchEndpoint today req = matchCandidates today req (some defaultJobSkills)
    ∧ (matchCandidates today { req with job_id := j } none).map (fun r => r.«matches»)
        = (matchCandidates today req none).map (fun r => r.«matches») := by
  refine ⟨rfl, ?_⟩
  simp only [matchCandidates, Option.getD_none]
  cases h : evalAll today defaultJobSkills req.weights req.candidates <;> simp [h]

/-! ## Claim C10 -/

/-- C10: a project whose completion date parses as a calendar date but lies
in the future (negative elapsed days) falls into the first, at most 30
days old, bucket and contributes 100 — the same as a project completed
today. -/
theorem c10_future_completion_scores_100 (today : Nat) (p : Project) (s : String) (d : Nat)
    (hc : p.completion_date = some s) (hp : parseDateOrd s = some d) (hf : today < d) :
    projectScore today p = 100
    ∧ (∀ q : Project, ∀ t, q.completion_date = some t → parseDateOrd t = some today →
        projectScore today q = projectScore today p) := by
  have key : ∀ (r : Project) (u : String) (e : Nat), r.completion_date = some u →
      parseDateOrd u = some e → (today : Int) - (e : Int) ≤ 30 →
      projectScore today r = 100 := by
    intro r u e hu hpe hle
    have hne : u ≠ "" := by
      intro h
      have hnone : parseDateOrd "" = none := by decide
      rw [h, hnone] at hpe
      exact Option.noConfusion hpe
    unfold projectScore
    rw [hu]
    simp only [if_neg hne, hpe]
    rw [if_pos hle]
  have h1 : projectScore today p = 100 := key p s d hc hp (by omega)
  refine ⟨h1, fun q t hq hpt => ?_⟩
  rw [h1]
  exact key q t today hq hpt (by omega)

/-- C10 witness: a concrete future-dated project under a concrete current
day scores 100. -/
theorem c10_witness :
    parseDateOrd "2027-01-01" = some (dateOrd 2027 1 1)
    ∧ dateOrd 2026 10 12 < dateOrd 2027 1 1
    ∧ projectScore (dateOrd 2026 10 12) ⟨"f", none, [], some "2027-01-01"⟩ = 100 :=
  ⟨by decide, by decide,
    (c10_future_completion_scores_100 (dateOrd 2026 10 12)
      ⟨"f", none, [], some "2027-01-01"⟩ "2027-01-01" (dateOrd 2027 1 1)
      rfl (by decide) (by decide)).1⟩

/-! ## Claim C7 -/

/-- C7 counterexample: a project whose completion date is the empty string
has a date string that fails to parse, yet it contributes 70 (the missing
date branch, by Python truthiness), not the 50 the claim asserts for
unparseable date strings. -/
theorem c7_counterexample_empty_date_string :
    parseDateOrd "" = none
    ∧ calculateRecencyScore 0 [⟨"p", none, [], some ""⟩] = 70
    ∧ (70 : ℚ) ≠ 50 := by
  refine ⟨by decide, ?_, by norm_num⟩
  norm_num [calculateRecencyScore, projectScore]

/-- C7 (amended): a candidate with no projects scores exactly 50; one
project whose date parses to the current day scores 100; one project whose
completion date is a NON-EMPTY string that fails to parse scores 50 (an
empty-string date is treated like a missing date by truthiness and
contributes 70); a project with no completion date contributes 70; with
several projects the recency score is the arithmetic mean of the
per-project contributions. -/
theorem c7_recency_rules (today : Nat) :
    calculateRecencyScore today [] = 50
    ∧ (∀ p : Project, ∀ s, p.completion_date = some s → parseDateOrd s = some today →
        calculateRecencyScore today [p] = 100)
    ∧ (∀ p : Project, ∀ s, p.completion_date = some s → s ≠ "" → parseDateOrd s = none →
        calculateRecencyScore today [p] = 50)
    ∧ (∀ p : Project, p.completion_date = none → projectScore today p = 70)
    ∧ (∀ p : Project, p.completion_date = some "" → projectScore today p = 70)
    ∧ (∀ ps : List Project, ps ≠ [] →
        calculateRecencyScore today ps = (ps.map (projectScore today)).sum / (ps.length : ℚ)) := by
  refine ⟨by norm_num [calculateRecencyScore], ?_, ?_, ?_, ?_, ?_⟩
  · intro p s hc hp
    have hne : s ≠ "" := by
      intro h
      have hnone : parseDateOrd "" = none := by decide
      rw [h, hnone] at hp
      exact Option.noConfusion hp
    have hps : projectScore today p = 100 := by
      unfold projectScore
      rw [hc]
      simp only [if_neg hne, hp]
      rw [if_pos (by omega : (today : Int) - (today : Int) ≤ 30)]
    norm_num [calculateRecencyScore, hps]
  · intro p s hc hne hp
    have hps : projectScore today p = 50 := by
      unfold projectScore
      rw [hc]
      simp only [if_neg hne, hp]
    norm_num [calculateRecencyScore, hps]
  · intro p hc
    simp [projectScore, hc]
  · intro p hc
    simp [projectScore, hc]
  · intro ps hne
    simp [calculateRecencyScore, isEmpty_false_of_ne_nil hne]

/-- C7 witness: the recency rules applied at a concrete current day, a
concrete today-dated project and a concrete unparseable date string. -/
theorem c7_witness :
    parseDateOrd "2026-10-12" = some (dateOrd 2026 10 12)
    ∧ calculateRecencyScore (dateOrd 2026 10 12) [⟨"p", none, [], some "2026-10-12"⟩] = 100
    ∧ parseDateOrd "not-a-date" = none
    ∧ calculateRecencyScore (dateOrd 2026 10 12) [⟨"q", none, [], some "not-a-date"⟩] = 50 :=
  ⟨by decide,
    (c7_recency_rules (dateOrd 2026 10 12)).2.1 ⟨"p", none, [], some "2026-10-12"⟩
      "2026-10-12" rfl (by decide),
    by decide,
    (c7_recency_rules (dateOrd 2026 10 12)).2.2.1 ⟨"q", none, [], some "not-a-date"⟩
      "not-a-date" rfl (by decide) (by decide)⟩

theorem foldrMax_zero (l : List Nat) (h : ∀ x ∈ l, x = 0) : l.foldr max 0 = 0 := by
  induction l with
  | nil => rfl
  | cons a t ih =>
    rw [List.foldr_cons, h a (by simp), ih (fun x hx => h x (by simp [hx]))]
    simp

/-! ## Claim C8 -/

/-- C8: requirement extraction is total by construction (every embedded
function is a total function of the text), and on a text with no
technical-vocabulary match, no soft-skill match and no seniority trigger —
in particular the empty text — it returns empty skills, empty soft skills
and seniority mid. -/
theorem c8_degraded_extraction (req : JDParseRequest)
    (h1 : noTechMatches (strLower req.job_description) = true)
    (h2 : noSoftMatches (strLower req.job_description) = true)
    (h3 : noSeniorityMatches (strLower req.job_description) = true) :
    parseJD req = ⟨[], [], SeniorityLevel.mid, req.job_id⟩ := by
  unfold noTechMatches at h1
  unfold noSoftMatches at h2
  unfold noSeniorityMatches at h3
  rw [List.all_eq_true] at h1 h2 h3
  have htech : extractTechnicalSkills (strLower req.job_description) = [] := by
    unfold extractTechnicalSkills
    have hnil : technicalSkillsList.filterMap (fun term =>
        if countWordMatches (strLower req.job_description) term == 0 then none
        else some (Skill.mk term (round2 (termWeight (strLower req.job_description) term)))) = [] := by
      rw [List.filterMap_eq_nil_iff]
      intro t ht
      rw [if_pos (h1 t ht)]
    rw [hnil]
    rfl
  have hsoft : extractSoftSkills (strLower req.job_description) = [] := by
    unfold extractSoftSkills
    rw [List.filter_eq_nil_iff]
    intro s hs
    have := h2 s hs
    simp only [beq_iff_eq] at this
    simp [this]
  have hsen : determineSeniority (strLower req.job_description) = SeniorityLevel.mid := by
    have hzero : ∀ l ∈ seniorityLevels, seniorityScore (strLower req.job_description) l = 0 := by
      intro l hl
      have := h3 l hl
      simpa using this
    have hmax : maxSeniorityScore (strLower req.job_description) = 0 := by
      unfold maxSeniorityScore seniorityPairs
      rw [List.map_map]
      apply foldrMax_zero
      intro x hx
      obtain ⟨l, hl, rfl⟩ := List.mem_map.mp hx
      exact hzero l hl
    unfold determineSeniority
    rw [hmax]
    rfl
  simp only [parseJD, htech, hsoft, hsen]

/-- C8 witness: the empty text has no matches of any kind and extraction
degrades to empty lists and seniority mid. -/
theorem c8_witness :
    noTechMatches (strLower "") = true
    ∧ noSoftMatches (strLower "") = true
    ∧ noSeniorityMatches (strLower "") = true
    ∧ parseJD ⟨"", none⟩ = ⟨[], [], SeniorityLevel.mid, none⟩ :=
  ⟨by decide, by decide, by decide,
    c8_degraded_extraction ⟨"", none⟩ (by decide) (by decide) (by decide)⟩

/-! ## Claim C3 -/

/-- C3: for every technical-vocabulary term with at least one whole-word
match, the term's weight is the base weight boosted by 1.5 (capped at 1)
exactly when the claim's condition holds: the lower-cased text contains one
of the literals requirements, required, must have, and the term occurs in
the boost window — the suffix of the text from the first occurrence of the
requirements literal when present, otherwise the whole text. -/
theorem c3_boost_window (text term : String)
    (hterm : term ∈ technicalSkillsList) (hf : 1 ≤ countWordMatches text term) :
    termWeight text term
      = if claimBoostCond text term then min (baseWeight text term * (3/2)) 1
        else baseWeight text term := by
  have hsub := countWordMatches_pos text term (by omega)
  have hcond : boostApplies text term = claimBoostCond text term := by
    unfold boostApplies claimBoostCond claimBoostWindow
    by_cases hreq : strContains text "requirements" = true
    · simp [hreq]
    · simp only [Bool.not_eq_true] at hreq
      simp [hreq, hsub.1, isEmpty_false_of_ne_nil hsub.2]
  simp only [termWeight, hcond]

/-- C3 witness: a concrete requirements-sectioned text in which the term
python is boosted from base weight 0.2 to 0.3. -/
theorem c3_witness :
    "python" ∈ technicalSkillsList
    ∧ 1 ≤ countWordMatches "requirements: python and sql" "python"
    ∧ termWeight "requirements: python and sql" "python" = 3/10 := by
  refine ⟨by decide, by decide, ?_⟩
  rw [c3_boost_window "requirements: python and sql" "python" (by decide) (by decide)]
  rw [if_pos (by decide : claimBoostCond "requirements: python and sql" "python" = true)]
  have hb : baseWeight "requirements: python and sql" "python" = 1/5 := by
    unfold baseWeight
    rw [(by decide : countWordMatches "requirements: python and sql" "python" = 1)]
    norm_num
  rw [hb]
  norm_num

/-! ## Claim C4 -/

/-- C4 counterexample: on a text with no trigger phrase at all, every level
is tied at count 0, so the claim's tie-break rule picks junior (the first
level in enumeration order), but the extractor returns mid. -/
theorem c4_counterexample_all_zero :
    determineSeniority "hello" = SeniorityLevel.mid
    ∧ firstArgmaxLevel "hello" = SeniorityLevel.junior
    ∧ noSeniorityMatches "hello" = true
    ∧ SeniorityLevel.mid ≠ SeniorityLevel.junior :=
  ⟨by decide, by decide, by decide, by decide⟩

/-- C4 (amended): whenever at least one trigger phrase matches (maximal
count positive), the returned level attains the maximal whole-word trigger
count and, among the levels attaining it, is the first in the enumeration
order junior, mid, senior, lead, principal; when every level counts 0 the
extractor returns mid instead of the tie-break winner junior. -/
theorem c4_seniority_first_argmax (text : String) (h : 1 ≤ maxSeniorityScore text) :
    attainsMaxSeniority text ∧ firstAmongMaxSeniority text := by
  have hne : (maxSeniorityScore text == 0) = false := by
    rw [beq_eq_false_iff_ne]
    omega
  unfold attainsMaxSeniority firstAmongMaxSeniority
  simp only [determineSeniority, hne, Bool.false_eq_true, if_false]
  simp only [firstArgmaxLevel, maxByScore, seniorityPairs, seniorityLevels,
    List.map_cons, List.map_nil, List.foldl_cons, List.foldl_nil]
  constructor
  · intro l
    cases l <;> split_ifs <;> simp_all <;> omega
  · intro l
    cases l <;> split_ifs <;> simp_all [enumIdx] <;> omega

/-- C4 witness: a text with exactly one junior trigger and one senior
trigger (equal counts) resolves to junior by the enumeration-order
tie-break. -/
theorem c4_witness :
    1 ≤ maxSeniorityScore "junior or senior"
    ∧ seniorityScore "junior or senior" SeniorityLevel.junior = 1
    ∧ seniorityScore "junior or senior" SeniorityLevel.senior = 1
    ∧ attainsMaxSeniority "junior or senior"
    ∧ determineSeniority "junior or senior" = SeniorityLevel.junior :=
  ⟨by decide, by decide, by decide,
    (c4_seniority_first_argmax "junior or senior" (by decide)).1, by decide⟩

/-! ## Claim C1 -/

/-- C1 counterexample: a candidate whose only skill is the alias ml, matched
against the single requirement machine learning, satisfies every condition
of the claim (non-empty skill map, non-empty requirement list, requirement
not a direct key, canonical alias-table term with a present alias), and the
claim's per-requirement accounting yields a skill score of 80; but the
source returns 0, because the direct-match intersection is empty and the
function returns early before any alias is consulted. -/
theorem c1_counterexample_alias_only :
    ([("ml", (5:ℚ))] ≠ ([] : List (String × ℚ)))
    ∧ (["machine learning"] ≠ ([] : List String))
    ∧ isKey (lowerDict [("ml", (5:ℚ))]) "machine learning" = false
    ∧ aliasFirst "machine learning" (lowerDict [("ml", (5:ℚ))]) = some "ml"
    ∧ skillScoreClaimC1 [("ml", (5:ℚ))] ["machine learning"] = 80
    ∧ calculateSkillScore [("ml", (5:ℚ))] ["machine learning"] = 0 := by
  have h1 : jobSkillsSet ["machine learning"] = ["machine learning"] := by decide
  have h2 : lowerDict [("ml", (5:ℚ))] = [("ml", 5)] := by decide
  have h3 : skillContrib [("ml", (5:ℚ))] "machine learning" = 4 := by
    have hk : isKey [("ml", (5:ℚ))] "machine learning" = false := by decide
    have ha : aliasFirst "machine learning" [("ml", (5:ℚ))] = some "ml" := by decide
    have hg : dictGet [("ml", (5:ℚ))] "ml" = 5 := by decide
    simp only [skillContrib, hk, Bool.false_eq_true, if_false, findPartialSkillMatch, ha, hg]
    norm_num
  refine ⟨by simp, by simp, by decide, by decide, ?_, by decide⟩
  simp only [skillScoreClaimC1, h1, h2, List.map_cons, List.map_nil, h3]
  norm_num

/-- C1 (amended): provided additionally that at least one required skill is
a direct key of the candidate's lower-cased skill map (without which the
source returns a skill score of 0 and no per-requirement contribution is
computed), a required skill that is not a direct key but is a canonical
alias-table term with a present alias contributes candidate level times 0.8
for the FIRST alias present in the alias list's declared order, and the
skill score is the normalised sum of the per-requirement contributions. -/
theorem c1_alias_first_match (cand : List (String × ℚ)) (job : List String) (r a : String)
    (h1 : cand ≠ []) (h2 : job ≠ [])
    (hdm : hasDirectMatch cand job = true)
    (hr : isKey (lowerDict cand) r = false)
    (ha : aliasFirst r (lowerDict cand) = some a) :
    skillContrib (lowerDict cand) r = dictGet (lowerDict cand) a * (4/5)
    ∧ calculateSkillScore cand job
        = ((jobSkillsSet job).map (skillContrib (lowerDict cand))).sum
            / (5 * ((jobSkillsSet job).length : ℚ)) * 100 := by
  constructor
  · simp only [skillContrib, hr, Bool.false_eq_true, if_false, findPartialSkillMatch, ha]
  · have hjset : jobSkillsSet job ≠ [] := by
      intro hnil
      unfold jobSkillsSet at hnil
      rw [List.dedup_eq_nil] at hnil
      exact h2 (List.map_eq_nil_iff.mp hnil)
    have hA : ¬ ((job.isEmpty || cand.isEmpty) = true) := by
      simp [isEmpty_false_of_ne_nil h1, isEmpty_false_of_ne_nil h2]
    have hB : ¬ (((jobSkillsSet job).all fun s => !isKey (lowerDict cand) s) = true) := by
      intro hall
      unfold hasDirectMatch at hdm
      rw [List.any_eq_true] at hdm
      obtain ⟨sk, hsk, hkey⟩ := hdm
      rw [List.all_eq_true] at hall
      have := hall sk hsk
      rw [hkey] at this
      exact Bool.noConfusion this
    have hC : 0 < 5 * ((jobSkillsSet job).length : ℚ) := by
      have : 0 < (jobSkillsSet job).length := List.length_pos.mpr hjset
      have hq : 0 < ((jobSkillsSet job).length : ℚ) := by exact_mod_cast this
      linarith
    simp only [calculateSkillScore]
    rw [if_neg hA, if_neg hB, if_pos hC]

/-- C1 witness: a candidate holding python directly and ml, matched against
python and machine learning; the alias contribution of machine learning is
the ml level times 0.8. -/
theorem c1_witness :
    hasDirectMatch [("python", (4:ℚ)), ("ml", 3)] ["python", "machine learning"] = true
    ∧ isKey (lowerDict [("python", (4:ℚ)), ("ml", 3)]) "machine learning" = false
    ∧ aliasFirst "machine learning" (lowerDict [("python", (4:ℚ)), ("ml", 3)]) = some "ml"
    ∧ skillContrib (lowerDict [("python", (4:ℚ)), ("ml", 3)]) "machine learning"
        = dictGet (lowerDict [("python", (4:ℚ)), ("ml", 3)]) "ml" * (4/5) :=
  ⟨by decide, by decide, by decide,
    (c1_alias_first_match [("python", (4:ℚ)), ("ml", 3)] ["python", "machine learning"]
      "machine learning" "ml" (by simp) (by simp) (by decide) (by decide) (by decide)).1⟩

/-! ## Claim C2 -/

/-- C2 counterexample: with the pydantic-valid weights 1, 1, 1 and a valid
candidate scoring skill 100, eval 100, recency 50, the weighted sum is 250;
the source does not clamp — the Match model's validation rejects the score
and the evaluation fails, returning no Match at all, while the claim
asserts a returned Match with score clamped to 100. -/
theorem c2_counterexample_no_clamping :
    validCandidate ⟨"s1", [("python", (5:ℚ))], 100, []⟩ = true
    ∧ validWeights ⟨1, 1, 1⟩ = true
    ∧ evaluateCandidate 0 ⟨"s1", [("python", (5:ℚ))], 100, []⟩ ["python"] ⟨1, 1, 1⟩ = none := by
  refine ⟨by decide, by decide, ?_⟩
  have hsk : calculateSkillScore [("python", (5:ℚ))] ["python"] = 100 := by
    have h1 : jobSkillsSet ["python"] = ["python"] := by decide
    have h2 : lowerDict [("python", (5:ℚ))] = [("python", 5)] := by decide
    simp only [calculateSkillScore, h1, h2]
    norm_num [isKey, skillContrib, dictGet]
  simp only [evaluateCandidate, hsk]
  norm_num [calculateRecencyScore, mkMatch, round2]

/-- C2 (amended): the overall score is the weighted sum of the component
scores rounded to 2 decimals, with NO clamping; the Match model validates
every score field into the range 0 to 100, so whenever the rounded weighted
sum lies in that range the returned Match's score equals it exactly, when
it falls outside the evaluation fails instead of clamping, and any returned
Match's score is never below 0 nor above 100. -/
theorem c2_overall_score (today : Nat) (c : Candidate) (js : List String)
    (w : MatchWeights) (o : ℚ) (hv : validCandidate c = true)
    (ho : o = round2 (calculateSkillScore c.skills js * w.skill + c.eval_score * w.eval
        + calculateRecencyScore today c.recent_projects * w.recency)) :
    ((0 ≤ o ∧ o ≤ 100) → (evaluateCandidate today c js w).map Match.score = some o)
    ∧ (¬ (0 ≤ o ∧ o ≤ 100) → evaluateCandidate today c js w = none)
    ∧ (∀ m, evaluateCandidate today c js w = some m →
        m.score = o ∧ 0 ≤ m.score ∧ m.score ≤ 100) := by
  unfold validCandidate at hv
  simp only [Bool.and_eq_true, decide_eq_true_eq, List.all_eq_true] at hv
  obtain ⟨⟨hev0, hev1⟩, hlvb⟩ := hv
  have hlv : ∀ p ∈ c.skills, 0 ≤ p.2 ∧ p.2 ≤ 5 := by
    intro p hp
    have := hlvb p hp
    simp only [Bool.and_eq_true, decide_eq_true_eq] at this
    exact this
  have hskB := calculateSkillScore_bounds c.skills js hlv
  have hrecB := calculateRecencyScore_bounds today c.recent_projects
  have hsk2 := round2_bounds _ hskB.1 hskB.2
  have hev2 := round2_bounds _ hev0 hev1
  have hrec2 := round2_bounds _ hrecB.1 hrecB.2
  simp only [evaluateCandidate, mkMatch, ← ho]
  refine ⟨?_, ?_, ?_⟩
  · intro hob
    rw [if_pos ⟨hob.1, hob.2, hsk2.1, hsk2.2, hev2.1, hev2.2, hrec2.1, hrec2.2⟩]
    rfl
  · intro hob
    rw [if_neg]
    intro hcond
    exact hob ⟨hcond.1, hcond.2.1⟩
  · intro m hm
    split at hm
    · next hcond =>
      injection hm with hm
      rw [← hm]
      exact ⟨rfl, hcond.1, hcond.2.1⟩
    · exact Option.noConfusion hm

/-- C2 witness: the spec's own end-to-end scenario — a candidate with
python at level 5, eval 100 and no projects, under the default weights
0.6, 0.3, 0.1 — yields a returned Match whose score is exactly the rounded
weighted sum 95. -/
theorem c2_witness :
    validCandidate ⟨"s1", [("python", (5:ℚ))], 100, []⟩ = true
    ∧ ((0:ℚ) ≤ 95 ∧ (95:ℚ) ≤ 100)
    ∧ (evaluateCandidate 0 ⟨"s1", [("python", (5:ℚ))], 100, []⟩ ["python"]
        ⟨3/5, 3/10, 1/10⟩).map Match.score = some 95 := by
  have hsk : calculateSkillScore [("python", (5:ℚ))] ["python"] = 100 := by
    have h1 : jobSkillsSet ["python"] = ["python"] := by decide
    have h2 : lowerDict [("python", (5:ℚ))] = [("python", 5)] := by decide
    simp only [calculateSkillScore, h1, h2]
    norm_num [isKey, skillContrib, dictGet]
  have ho : (95:ℚ) = round2 (calculateSkillScore [("python", (5:ℚ))] ["python"] * (3/5)
      + (100:ℚ) * (3/10) + calculateRecencyScore 0 [] * (1/10)) := by
    rw [hsk]
    norm_num [calculateRecencyScore, round2]
  exact ⟨by decide, by norm_num,
    (c2_overall_score 0 ⟨"s1", [("python", (5:ℚ))], 100, []⟩ ["python"]
      ⟨3/5, 3/10, 1/10⟩ 95 (by decide) ho).1 (by norm_num)⟩

/-! ## Claim C5 -/

/-- C5 counterexample: a well-typed request (top_k 1, weights 1, 1, 1 — each
within its pydantic bound — and one valid candidate) on which the rounded
weighted sum is 175, so Match validation fails and the call raises: no
response is returned at all, while the claim asserts a response with
min(top_k, candidate count) = 1 match. -/
theorem c5_counterexample_validation_failure :
    validRequest ⟨"job1", [⟨"s1", [("python", (5:ℚ))], 100, []⟩], 1, ⟨1, 1, 1⟩⟩ = true
    ∧ matchCandidates 0 ⟨"job1", [⟨"s1", [("python", (5:ℚ))], 100, []⟩], 1, ⟨1, 1, 1⟩⟩ none
        = none := by
  refine ⟨by decide, ?_⟩
  have hsk : calculateSkillScore [("python", (5:ℚ))] defaultJobSkills = 25 := by
    have h1 : jobSkillsSet defaultJobSkills
        = ["python", "machine learning", "sql", "communication"] := by decide
    have h2 : lowerDict [("python", (5:ℚ))] = [("python", 5)] := by decide
    have c1 : skillContrib [("python", (5:ℚ))] "python" = 5 := by decide
    have c2 : skillContrib [("python", (5:ℚ))] "machine learning" = 0 := by decide
    have c3 : skillContrib [("python", (5:ℚ))] "sql" = 0 := by decide
    have c4 : skillContrib [("python", (5:ℚ))] "communication" = 0 := by decide
    simp only [calculateSkillScore, h1, h2, List.map_cons, List.map_nil, c1, c2, c3, c4]
    norm_num [defaultJobSkills, isKey]
  have he : evaluateCandidate 0 ⟨"s1", [("python", (5:ℚ))], 100, []⟩ defaultJobSkills
      ⟨1, 1, 1⟩ = none := by
    simp only [evaluateCandidate, hsk]
    norm_num [calculateRecencyScore, mkMatch, round2]
  simp only [matchCandidates, Option.getD_none, evalAll, he]

/-- C5 (amended): for every request on which every candidate evaluation
passes Match validation (the call returns a response at all), the number of
returned matches equals min(top_k, number of input candidates) and
total_candidates equals the untruncated input count; an empty candidate
list always yields an empty match list and total 0. When some candidate's
rounded overall score fails validation the call instead raises and returns
nothing. -/
theorem c5_match_counts (today : Nat) (req : MatchRequest) (jso : Option (List String))
    (h : (matchCandidates today req jso).isSome = true) :
    (matchCandidates today req jso).map (fun resp => resp.«matches».length)
        = some (min req.top_k req.candidates.length)
    ∧ (matchCandidates today req jso).map (fun resp => resp.total_candidates)
        = some req.candidates.length
    ∧ (req.candidates = [] →
        matchCandidates today req jso = some ⟨req.job_id, [], 0, 0⟩) := by
  cases hv : evalAll today (jso.getD defaultJobSkills) req.weights req.candidates with
  | none =>
    rw [matchCandidates.eq_def] at h
    simp only [hv] at h
    exact Bool.noConfusion h
  | some ms =>
    have hms := evalAll_length today (jso.getD defaultJobSkills) req.weights
      req.candidates ms hv
    refine ⟨?_, ?_, ?_⟩
    · simp only [matchCandidates, hv, Option.map_some']
      rw [List.length_take, sortByDesc_length, hms]
    · simp only [matchCandidates, hv, Option.map_some']
    · intro hemp
      have hms0 : ms = [] := by
        have := hms
        rw [hemp] at this
        simpa using List.length_eq_zero.mp this
      simp only [matchCandidates, hv]
      rw [hemp, hms0]
      simp only [sortByDesc, List.foldl_nil, List.take_nil, List.length_nil]

/-- C5 witness: 15 equal candidates with top_k 5 — every evaluation passes
validation and the response holds exactly 5 matches with total 15; the
count rules applied through the amended theorem. -/
theorem c5_witness :
    (matchCandidates 0 ⟨"job", List.replicate 15 ⟨"s", [], 50, []⟩, 5,
        ⟨3/5, 3/10, 1/10⟩⟩ none).isSome = true
    ∧ (matchCandidates 0 ⟨"job", List.replicate 15 ⟨"s", [], 50, []⟩, 5,
        ⟨3/5, 3/10, 1/10⟩⟩ none).map (fun resp => resp.«matches».length) = some 5
    ∧ (matchCandidates 0 ⟨"job", List.replicate 15 ⟨"s", [], 50, []⟩, 5,
        ⟨3/5, 3/10, 1/10⟩⟩ none).map (fun resp => resp.total_candidates) = some 15 := by
  have hm : evaluateCandidate 0 ⟨"s", [], 50, []⟩ defaultJobSkills ⟨3/5, 3/10, 1/10⟩
      = some ⟨"s", 20, ⟨[], ["python", "machine learning", "sql", "communication"], []⟩,
          0, 50, 50⟩ := by
    have hr : generateMatchReasons ⟨"s", [], 50, []⟩ defaultJobSkills
        = ⟨[], ["python", "machine learning", "sql", "communication"], []⟩ := by decide
    have hsk : calculateSkillScore [] defaultJobSkills = 0 := by
      norm_num [calculateSkillScore]
    simp only [evaluateCandidate, hsk, hr]
    norm_num [calculateRecencyScore, mkMatch, round2]
  have hall : ∀ n : Nat,
      evalAll 0 defaultJobSkills ⟨3/5, 3/10, 1/10⟩ (List.replicate n ⟨"s", [], 50, []⟩)
        = some (List.replicate n
            (⟨"s", 20, ⟨[], ["python", "machine learning", "sql", "communication"], []⟩,
              0, 50, 50⟩ : Match)) := by
    intro n
    induction n with
    | zero => rfl
    | succ k ih =>
      rw [List.replicate_succ, List.replicate_succ]
      simp only [evalAll, hm, ih]
  have hs : (matchCandidates 0 ⟨"job", List.replicate 15 ⟨"s", [], 50, []⟩, 5,
      ⟨3/5, 3/10, 1/10⟩⟩ none).isSome = true := by
    simp only [matchCandidates, Option.getD_none, hall 15]
    rfl
  refine ⟨hs, ?_, ?_⟩
  · exact ((c5_match_counts 0 ⟨"job", List.replicate 15 ⟨"s", [], 50, []⟩, 5,
      ⟨3/5, 3/10, 1/10⟩⟩ none hs).1).trans (by simp)
  · exact ((c5_match_counts 0 ⟨"job", List.replicate 15 ⟨"s", [], 50, []⟩, 5,
      ⟨3/5, 3/10, 1/10⟩⟩ none hs).2.1).trans (by simp)

/-! ## Claim C6 -/

/-- C6: the returned matches are the stably score-descending-sorted
evaluated matches truncated to top_k: the sorted list is pairwise
descending in score, and for every score value the subsequence of matches
carrying that score is identical to its subsequence in the input
evaluation order — ties preserve the candidates' input order. -/
theorem c6_stable_ranking (today : Nat) (req : MatchRequest) (jso : Option (List String))
    (ms : List Match)
    (h : evalAll today (jso.getD defaultJobSkills) req.weights req.candidates = some ms) :
    (matchCandidates today req jso).map (fun resp => resp.«matches»)
        = some ((sortByDesc (fun m => m.score) ms).take req.top_k)
    ∧ (sortByDesc (fun m => m.score) ms).Pairwise (fun a b => b.score ≤ a.score)
    ∧ (∀ c : ℚ, (sortByDesc (fun m => m.score) ms).filter (fun m => decide (m.score = c))
        = ms.filter (fun m => decide (m.score = c))) := by
  refine ⟨?_, sortByDesc_pairwise (fun m => m.score) ms,
    fun c => sortByDesc_filter (fun m => m.score) ms c⟩
  simp only [matchCandidates, h, Option.map_some']

/-- C6 witness: two candidates with identical overall scores 20 keep their
input order in the returned matches, and the score-20 subsequence of the
sorted list equals that of the evaluation order. -/
theorem c6_witness :
    evalAll 0 defaultJobSkills ⟨3/5, 3/10, 1/10⟩
        [⟨"a", [], 50, []⟩, ⟨"b", [], 50, []⟩]
      = some [⟨"a", 20, ⟨[], ["python", "machine learning", "sql", "communication"], []⟩,
            0, 50, 50⟩,
          ⟨"b", 20, ⟨[], ["python", "machine learning", "sql", "communication"], []⟩,
            0, 50, 50⟩]
    ∧ (matchCandidates 0 ⟨"j", [⟨"a", [], 50, []⟩, ⟨"b", [], 50, []⟩], 10,
        ⟨3/5, 3/10, 1/10⟩⟩ none).map (fun resp => resp.«matches»)
      = some [⟨"a", 20, ⟨[], ["python", "machine learning", "sql", "communication"], []⟩,
            0, 50, 50⟩,
          ⟨"b", 20, ⟨[], ["python", "machine learning", "sql", "communication"], []⟩,
            0, 50, 50⟩] := by
  have hma : evaluateCandidate 0 ⟨"a", [], 50, []⟩ defaultJobSkills ⟨3/5, 3/10, 1/10⟩
      = some ⟨"a", 20, ⟨[], ["python", "machine learning", "sql", "communication"], []⟩,
          0, 50, 50⟩ := by
    have hr : generateMatchReasons ⟨"a", [], 50, []⟩ defaultJobSkills
        = ⟨[], ["python", "machine learning", "sql", "communication"], []⟩ := by decide
    have hsk : calculateSkillScore [] defaultJobSkills = 0 := by
      norm_num [calculateSkillScore]
    simp only [evaluateCandidate, hsk, hr]
    norm_num [calculateRecencyScore, mkMatch, round2]
  have hmb : evaluateCandidate 0 ⟨"b", [], 50, []⟩ defaultJobSkills ⟨3/5, 3/10, 1/10⟩
      = some ⟨"b", 20, ⟨[], ["python", "machine learning", "sql", "communication"], []⟩,
          0, 50, 50⟩ := by
    have hr : generateMatchReasons ⟨"b", [], 50, []⟩ defaultJobSkills
        = ⟨[], ["python", "machine learning", "sql", "communication"], []⟩ := by decide
    have hsk : calculateSkillScore [] defaultJobSkills = 0 := by
      norm_num [calculateSkillScore]
    simp only [evaluateCandidate, hsk, hr]
    norm_num [calculateRecencyScore, mkMatch, round2]
  have hev : evalAll 0 defaultJobSkills ⟨3/5, 3/10, 1/10⟩
      [⟨"a", [], 50, []⟩, ⟨"b", [], 50, []⟩]
      = some [⟨"a", 20, ⟨[], ["python", "machine learning", "sql", "communication"], []⟩,
            0, 50, 50⟩,
          ⟨"b", 20, ⟨[], ["python", "machine learning", "sql", "communication"], []⟩,
            0, 50, 50⟩] := by
    simp only [evalAll, hma, hmb]
  refine ⟨hev, ?_⟩
  rw [(c6_stable_ranking 0 ⟨"j", [⟨"a", [], 50, []⟩, ⟨"b", [], 50, []⟩], 10,
      ⟨3/5, 3/10, 1/10⟩⟩ none _ hev).1]
  norm_num [sortByDesc, insertByDesc]
